import Mathlib

/-!
# Import group ordering (`reviser/import_order.go`)

A shallow embedding of the order-specification parser `StringToImportsOrders`,
its helper `unique`, and the two group sequencers `sortImportsByOrder` and
`sortImportsByOrderV2`, followed by theorems about them.

Go strings are modelled by Lean strings (sequences of Unicode code points, that
is, well-formed UTF-8 text); Go slices by lists; a Go `(value, error)` result by
`Except String`, the error carrying the formatted message.
-/

/-! ## The parts of the Go standard library the file calls -/

namespace unicode

/-- Go `unicode.IsSpace`: the Latin-1 cases `\t \n \v \f \r`, space, U+0085 and
U+00A0, and beyond Latin-1 the `White_Space` range table. -/
def IsSpace (r : Char) : Bool :=
  let n := r.toNat
  (0x09 ≤ n && n ≤ 0x0D) || n == 0x20 || n == 0x85 || n == 0xA0 ||
  n == 0x1680 || (0x2000 ≤ n && n ≤ 0x200A) || n == 0x2028 || n == 0x2029 ||
  n == 0x202F || n == 0x205F || n == 0x3000

end unicode

namespace strings

/-- Go `strings.TrimSpace`: the string without its leading and trailing white
space, as `unicode.IsSpace` defines it. -/
def TrimSpace (s : String) : String :=
  ⟨(((s.data.dropWhile unicode.IsSpace).reverse).dropWhile unicode.IsSpace).reverse⟩

/-- Splitting of a character sequence at every occurrence of `sep`: `n`
occurrences give `n + 1` pieces, empty pieces included. -/
def splitChars (sep : Char) : List Char → List (List Char)
  | [] => [[]]
  | c :: cs =>
    if c = sep then [] :: splitChars sep cs
    else
      match splitChars sep cs with
      | [] => [[c]]
      | t :: ts => (c :: t) :: ts

/-- Go `strings.Split(s, sep)` for a separator of one character (the file only
calls it with `","`). -/
def Split (s : String) (sep : Char) : List String :=
  (splitChars sep s.data).map String.mk

end strings

namespace reviser

/-! ## Data model -/

/-- Go `type ImportsOrder string`: the name of an import group. -/
abbrev ImportsOrder := String

/-- Go `StdImportsOrder`: std libs. -/
def StdImportsOrder : ImportsOrder := "std"
/-- Go `CompanyImportsOrder`: packages of the same organization. -/
def CompanyImportsOrder : ImportsOrder := "company"
/-- Go `ProjectImportsOrder`: packages inside the current project. -/
def ProjectImportsOrder : ImportsOrder := "project"
/-- Go `GeneralImportsOrder`: general purpose libraries. -/
def GeneralImportsOrder : ImportsOrder := "general"

/-- Go constant `defaultImportsOrder`. -/
def defaultImportsOrder : String := "std,general,company,project"

/-- Go `type ImportsOrders []ImportsOrder`. -/
abbrev ImportsOrders := List ImportsOrder

/-! ## Operations -/

/-- The four-way `switch group` shared by both sequencers: the line list of the
named group, and the zero value (nil, the empty list) for any other name. -/
def selectImports (group : ImportsOrder) (std general company project : List String) :
    List String :=
  if group = StdImportsOrder then std
  else if group = GeneralImportsOrder then general
  else if group = CompanyImportsOrder then company
  else if group = ProjectImportsOrder then project
  else []

/-- Go `ImportsOrders.sortImportsByOrder`: with an empty receiver the inputs as
they are; otherwise one list per entry of the receiver is collected and
`result[0], result[1], result[2], result[3]` are returned. Indexing past the
end of `result` is a run-time fault, modelled by `none`. -/
def sortImportsByOrder (o : ImportsOrders) (std general company project : List String) :
    Option (List String × List String × List String × List String) :=
  if o.length = 0 then some (std, general, company, project)
  else
    let result : List (List String) :=
      o.foldl (fun result group => result ++ [selectImports group std general company project]) []
    match result[0]?, result[1]?, result[2]?, result[3]? with
    | some a, some b, some c, some d => some (a, b, c, d)
    | _, _, _, _ => none

/-- Go package variable `companyImportsOrder`. -/
def companyImportsOrder : ImportsOrders := [CompanyImportsOrder, ProjectImportsOrder]

/-- The body of the `for i, group := range no` loop of `sortImportsByOrderV2`,
run from index `i` over the entries `rest` that remain, `result` being the
lines appended so far. `no[i-1]` is read only when `i != 0`, where it is in
range. -/
def sortLoopV2 (no : ImportsOrders) (std general company project : List String) :
    Nat → List ImportsOrder → List String → List String
  | _, [], result => result
  | i, group :: rest, result =>
    let result :=
      if i ≠ 0 then
        if !(companyImportsOrder.contains group &&
             companyImportsOrder.contains (no.getD (i - 1) "")) then
          result ++ [""]
        else result
      else result
    let imports := selectImports group std general company project
    sortLoopV2 no std general company project (i + 1) rest (result ++ imports)

/-- Go `ImportsOrders.sortImportsByOrderV2`. -/
def sortImportsByOrderV2 (o : ImportsOrders) (std general company project : List String) :
    List String :=
  let no : ImportsOrders :=
    if o.length = 0 then
      [StdImportsOrder, CompanyImportsOrder, ProjectImportsOrder, GeneralImportsOrder]
    else o
  sortLoopV2 no std general company project 0 no []

/-- The loop of `sortImportsByOrderV2` once more, this time with the index
expression `no[i-1]` checked: Go evaluates it only when `i != 0` and the first
operand of `&&` is true, and reading outside `no` is a run-time fault, modelled
by `none`. -/
def sortLoopV2Checked (no : ImportsOrders) (std general company project : List String) :
    Nat → List ImportsOrder → List String → Option (List String)
  | _, [], result => some result
  | i, group :: rest, result =>
    let imports := selectImports group std general company project
    if i ≠ 0 then
      if companyImportsOrder.contains group then
        match no[i - 1]? with
        | none => none
        | some prev =>
          if !(true && companyImportsOrder.contains prev) then
            sortLoopV2Checked no std general company project (i + 1) rest
              (result ++ [""] ++ imports)
          else
            sortLoopV2Checked no std general company project (i + 1) rest (result ++ imports)
      else
        sortLoopV2Checked no std general company project (i + 1) rest
          (result ++ [""] ++ imports)
    else
      sortLoopV2Checked no std general company project (i + 1) rest (result ++ imports)

/-- Go `ImportsOrders.sortImportsByOrderV2` with the checked loop. -/
def sortImportsByOrderV2Checked (o : ImportsOrders)
    (std general company project : List String) : Option (List String) :=
  let no : ImportsOrders :=
    if o.length = 0 then
      [StdImportsOrder, CompanyImportsOrder, ProjectImportsOrder, GeneralImportsOrder]
    else o
  sortLoopV2Checked no std general company project 0 no []

/-- Go `unique`. The map `keys` is created empty and the loop only ever reads
it: no statement of the function stores a key. -/
def unique (s : List String) : List String :=
  let keys : List String := []
  s.foldl (fun list entry => if ¬ (entry ∈ keys) then list ++ [entry] else list) []

/-- The message of the error returned when the count check fails. -/
def malformedError : String :=
  "use this parameters to sort all groups of your imports: \"" ++ defaultImportsOrder ++ "\""

/-- The message of the error returned for a group name outside the four. -/
def unknownGroupError (group : ImportsOrder) : String :=
  "unknown order group type: \"" ++ group ++ "\""

/-- The `for _, g := range groups` loop of `StringToImportsOrders`:
`groupOrder` holds the names accepted so far. -/
def parseLoop : List String → List ImportsOrder → Except String ImportsOrders
  | [], groupOrder => .ok groupOrder
  | g :: rest, groupOrder =>
    let group : ImportsOrder := strings.TrimSpace g
    if group = StdImportsOrder ∨ group = CompanyImportsOrder ∨
       group = ProjectImportsOrder ∨ group = GeneralImportsOrder then
      parseLoop rest (groupOrder ++ [group])
    else .error (unknownGroupError group)

/-- Go `StringToImportsOrders`. -/
def StringToImportsOrders (s : String) : Except String ImportsOrders :=
  let s := if (strings.TrimSpace s).length = 0 then defaultImportsOrder else s
  let groups := unique (strings.Split s ',')
  if groups.length ≠ 4 then .error malformedError
  else parseLoop groups []

/-- The four recognized group names. -/
def knownGroups : List ImportsOrder :=
  [StdImportsOrder, GeneralImportsOrder, CompanyImportsOrder, ProjectImportsOrder]

/-- The twenty-four arrangements of the four group names. -/
def allOrders : List ImportsOrders :=
  [["std", "general", "company", "project"], ["std", "general", "project", "company"],
   ["std", "company", "general", "project"], ["std", "company", "project", "general"],
   ["std", "project", "general", "company"], ["std", "project", "company", "general"],
   ["general", "std", "company", "project"], ["general", "std", "project", "company"],
   ["general", "company", "std", "project"], ["general", "company", "project", "std"],
   ["general", "project", "std", "company"], ["general", "project", "company", "std"],
   ["company", "std", "general", "project"], ["company", "std", "project", "general"],
   ["company", "general", "std", "project"], ["company", "general", "project", "std"],
   ["company", "project", "std", "general"], ["company", "project", "general", "std"],
   ["project", "std", "general", "company"], ["project", "std", "company", "general"],
   ["project", "general", "std", "company"], ["project", "general", "company", "std"],
   ["project", "company", "std", "general"], ["project", "company", "general", "std"]]

/-! ## Auxiliary lemmas -/

section Lemmas

theorem dropWhile_twice_nil {α : Type} (p : α → Bool) (l : List α)
    (h : ((l.dropWhile p).reverse).dropWhile p = []) : ∀ c ∈ l, p c = true := by
  have hall : ∀ x ∈ (l.dropWhile p).reverse, p x = true := List.dropWhile_eq_nil_iff.mp h
  have hd : l.dropWhile p = [] := by
    by_contra hne
    have h1 := List.head_dropWhile_not p l hne
    have h2 := hall ((l.dropWhile p).head hne) (by simp)
    simp [h2] at h1
  exact List.dropWhile_eq_nil_iff.mp hd

theorem trimSpace_length_eq_zero_iff (s : String) :
    (strings.TrimSpace s).length = 0 ↔ ∀ c ∈ s.data, unicode.IsSpace c = true := by
  constructor
  · intro h
    apply dropWhile_twice_nil
    have : (strings.TrimSpace s).data = [] := List.length_eq_zero.mp h
    simpa [strings.TrimSpace] using this
  · intro h
    have hd : s.data.dropWhile unicode.IsSpace = [] := List.dropWhile_eq_nil_iff.mpr h
    simp [strings.TrimSpace, hd, String.length]

theorem splitChars_ne_nil (sep : Char) (l : List Char) : strings.splitChars sep l ≠ [] := by
  cases l with
  | nil => simp [strings.splitChars]
  | cons c cs =>
    unfold strings.splitChars
    split
    · simp
    · split <;> simp

theorem splitChars_length (sep : Char) (l : List Char) :
    (strings.splitChars sep l).length = l.count sep + 1 := by
  induction l with
  | nil => simp [strings.splitChars]
  | cons c cs ih =>
    unfold strings.splitChars
    by_cases hc : c = sep
    · subst hc
      simp [ih]
    · have hne := splitChars_ne_nil sep cs
      rw [if_neg hc]
      cases hs : strings.splitChars sep cs with
      | nil => exact absurd hs hne
      | cons t ts =>
        rw [hs] at ih
        simp only [List.length_cons] at ih ⊢
        rw [List.count_cons_of_ne (fun h => hc h.symm)]
        exact ih

theorem split_length (s : String) (sep : Char) :
    (strings.Split s sep).length = s.data.count sep + 1 := by
  simp [strings.Split, splitChars_length]

theorem unique_eq (s : List String) : unique s = s := by
  have key : ∀ (l acc : List String),
      l.foldl (fun list entry => if ¬ (entry ∈ ([] : List String)) then list ++ [entry] else list)
        acc = acc ++ l := by
    intro l
    induction l with
    | nil => intro acc; simp
    | cons x xs ih => intro acc; rw [List.foldl_cons, ih]; simp
  simpa [unique] using key s []

/-- A string that has a comma is not blank, so the parser keeps it. -/
theorem trimSpace_length_ne_zero_of_comma (s : String) (h : 0 < s.data.count ',') :
    (strings.TrimSpace s).length ≠ 0 := by
  intro h0
  have hall := (trimSpace_length_eq_zero_iff s).mp h0
  have hmem : ',' ∈ s.data := List.count_pos_iff.mp h
  have := hall ',' hmem
  simp [unicode.IsSpace] at this

theorem parseLoop_ok (gs : List String) :
    ∀ acc : List ImportsOrder, (∀ g ∈ gs, strings.TrimSpace g ∈ knownGroups) →
      parseLoop gs acc = .ok (acc ++ gs.map strings.TrimSpace) := by
  induction gs with
  | nil => intro acc _; simp [parseLoop]
  | cons g rest ih =>
    intro acc h
    have hg : strings.TrimSpace g ∈ knownGroups := h g (by simp)
    have hg2 : strings.TrimSpace g = StdImportsOrder ∨ strings.TrimSpace g = CompanyImportsOrder ∨
        strings.TrimSpace g = ProjectImportsOrder ∨ strings.TrimSpace g = GeneralImportsOrder := by
      simp [knownGroups] at hg; tauto
    unfold parseLoop
    simp only [hg2, if_true]
    rw [ih _ (fun x hx => h x (by simp [hx]))]
    simp

theorem parseLoop_inv (gs : List String) :
    ∀ (acc r : List ImportsOrder), parseLoop gs acc = .ok r →
      r = acc ++ gs.map strings.TrimSpace ∧ ∀ g ∈ gs, strings.TrimSpace g ∈ knownGroups := by
  induction gs with
  | nil => intro acc r h; simp [parseLoop] at h; simp [h]
  | cons g rest ih =>
    intro acc r h
    unfold parseLoop at h
    by_cases hg2 : strings.TrimSpace g = StdImportsOrder ∨
        strings.TrimSpace g = CompanyImportsOrder ∨
        strings.TrimSpace g = ProjectImportsOrder ∨ strings.TrimSpace g = GeneralImportsOrder
    · simp only [hg2, if_true] at h
      obtain ⟨h1, h2⟩ := ih _ _ h
      refine ⟨by simp [h1], ?_⟩
      intro x hx
      rcases List.mem_cons.mp hx with rfl | hx
      · simp [knownGroups]; tauto
      · exact h2 x hx
    · simp only [hg2, if_false] at h
      cases h

theorem parseLoop_error (gs : List String) :
    ∀ (acc : List ImportsOrder) (t : String),
      (gs.map strings.TrimSpace).find? (fun x => decide (x ∉ knownGroups)) = some t →
      parseLoop gs acc = .error (unknownGroupError t) := by
  induction gs with
  | nil => intro acc t h; simp at h
  | cons g rest ih =>
    intro acc t h
    unfold parseLoop
    by_cases hg : strings.TrimSpace g ∈ knownGroups
    · have hg2 : strings.TrimSpace g = StdImportsOrder ∨
          strings.TrimSpace g = CompanyImportsOrder ∨
          strings.TrimSpace g = ProjectImportsOrder ∨
          strings.TrimSpace g = GeneralImportsOrder := by
        simp [knownGroups] at hg; tauto
      simp only [hg2, if_true]
      apply ih
      simpa [List.find?_cons, hg] using h
    · have hg2 : ¬ (strings.TrimSpace g = StdImportsOrder ∨
          strings.TrimSpace g = CompanyImportsOrder ∨
          strings.TrimSpace g = ProjectImportsOrder ∨
          strings.TrimSpace g = GeneralImportsOrder) := by
        intro hh; apply hg; simp [knownGroups]; tauto
      simp only [hg2, if_false]
      have : t = strings.TrimSpace g := by
        simp [List.find?_cons, hg] at h
        exact h.symm
      rw [this]

theorem sortLoopV2_cons (no : ImportsOrders) (std general company project : List String)
    (i : Nat) (group : ImportsOrder) (rest : List ImportsOrder) (result : List String) :
    sortLoopV2 no std general company project i (group :: rest) result =
      sortLoopV2 no std general company project (i + 1) rest
        ((if i ≠ 0 then
            if !(companyImportsOrder.contains group &&
                 companyImportsOrder.contains (no.getD (i - 1) "")) then
              result ++ [""]
            else result
          else result) ++ selectImports group std general company project) := by
  rw [sortLoopV2]

theorem sortLoopV2_acc (no : ImportsOrders) (std general company project : List String)
    (rest : List ImportsOrder) :
    ∀ (i : Nat) (result : List String),
      sortLoopV2 no std general company project i rest result =
        result ++ sortLoopV2 no std general company project i rest [] := by
  induction rest with
  | nil => intro i result; simp [sortLoopV2]
  | cons g gs ih =>
    intro i result
    unfold sortLoopV2
    simp only []
    rw [ih (i + 1) (_ ++ _)]
    conv_rhs => rw [ih (i + 1) (_ ++ _)]
    split_ifs <;> simp

theorem sortLoopV2_append (no : ImportsOrders) (std general company project : List String)
    (xs ys : List ImportsOrder) :
    ∀ (i : Nat) (result : List String),
      sortLoopV2 no std general company project i (xs ++ ys) result =
        sortLoopV2 no std general company project (i + xs.length) ys
          (sortLoopV2 no std general company project i xs result) := by
  induction xs with
  | nil => intro i result; simp [sortLoopV2]
  | cons g gs ih =>
    intro i result
    simp only [List.cons_append, List.length_cons, sortLoopV2_cons]
    rw [ih (i + 1)]
    have harith : i + 1 + gs.length = i + (gs.length + 1) := by omega
    rw [harith]

theorem sortLoopV2_congr (no no2 : ImportsOrders) (std general company project : List String)
    (rest : List ImportsOrder) :
    ∀ (i : Nat) (result : List String),
      (∀ k, i ≤ k + 1 → k + 1 < i + rest.length → no.getD k "" = no2.getD k "") →
      sortLoopV2 no std general company project i rest result =
        sortLoopV2 no2 std general company project i rest result := by
  induction rest with
  | nil => intro i result _; simp [sortLoopV2]
  | cons g gs ih =>
    intro i result h
    unfold sortLoopV2
    simp only []
    have hrest : ∀ k, i + 1 ≤ k + 1 → k + 1 < i + 1 + gs.length →
        no.getD k "" = no2.getD k "" := by
      intro k h1 h2
      apply h k (by omega)
      simp only [List.length_cons]
      omega
    rw [ih (i + 1) _ hrest]
    by_cases hi : i = 0
    · simp [hi]
    · have hk : no.getD (i - 1) "" = no2.getD (i - 1) "" := by
        apply h (i - 1) (by omega)
        simp only [List.length_cons]
        omega
      rw [hk]

theorem sortImportsByOrderV2_of_ne_nil (o : ImportsOrders)
    (std general company project : List String) (h : o ≠ []) :
    sortImportsByOrderV2 o std general company project =
      sortLoopV2 o std general company project 0 o [] := by
  have hl : o.length ≠ 0 := fun h0 => h (List.length_eq_zero.mp h0)
  simp [sortImportsByOrderV2, hl]

theorem sortLoopV2_take (o : ImportsOrders) (std general company project : List String)
    (n : Nat) :
    sortLoopV2 o std general company project 0 (o.take n) [] =
      sortLoopV2 (o.take n) std general company project 0 (o.take n) [] := by
  apply sortLoopV2_congr
  intro k _ hk
  have hk2 : k < n := by
    have := List.length_take_le n o
    omega
  simp [List.getD_eq_getElem?_getD, List.getElem?_take, hk2]

/-- On a string that has three commas the parser runs its loop on the four
comma-separated tokens as they stand. -/
theorem StringToImportsOrders_of_four (s : String) (h : (strings.Split s ',').length = 4) :
    StringToImportsOrders s = parseLoop (strings.Split s ',') [] := by
  have hc : 0 < s.data.count ',' := by
    rw [split_length] at h
    omega
  have h0 := trimSpace_length_ne_zero_of_comma s hc
  simp [StringToImportsOrders, h0, unique_eq, h]

theorem selectImports_unknown (g : ImportsOrder) (std general company project : List String)
    (hg : g ∉ knownGroups) : selectImports g std general company project = [] := by
  simp only [knownGroups, List.mem_cons, List.mem_singleton, List.not_mem_nil, or_false,
    not_or] at hg
  simp [selectImports, hg.1, hg.2.1, hg.2.2.1, hg.2.2.2]

theorem selectImports_cases (g : ImportsOrder) (std general company project : List String) :
    selectImports g std general company project = std ∨
    selectImports g std general company project = general ∨
    selectImports g std general company project = company ∨
    selectImports g std general company project = project ∨
    selectImports g std general company project = [] := by
  unfold selectImports
  split_ifs <;> simp

theorem sortLoopV2Checked_eq (no : ImportsOrders) (std general company project : List String)
    (rest : List ImportsOrder) :
    ∀ (pre : List ImportsOrder) (result : List String), no = pre ++ rest →
      sortLoopV2Checked no std general company project pre.length rest result =
        some (sortLoopV2 no std general company project pre.length rest result) := by
  induction rest with
  | nil => intro pre result _; simp [sortLoopV2Checked, sortLoopV2]
  | cons g gs ih =>
    intro pre result hno
    have hnext : ∀ r : List String,
        sortLoopV2Checked no std general company project (pre.length + 1) gs r =
          some (sortLoopV2 no std general company project (pre.length + 1) gs r) := by
      intro r
      have := ih (pre ++ [g]) r (by simp [hno])
      simpa using this
    rw [sortLoopV2_cons]
    unfold sortLoopV2Checked
    simp only []
    by_cases hi : pre.length = 0
    · rw [if_neg (fun h => h hi), if_neg (fun h => h hi)]
      exact hnext _
    · have hlt : pre.length - 1 < no.length := by
        rw [hno, List.length_append]
        omega
      have hget : no[pre.length - 1]? = some (no.getD (pre.length - 1) "") := by
        simp [List.getD_eq_getElem?_getD, List.getElem?_eq_getElem hlt]
      rw [if_pos hi, if_pos hi, hget]
      simp only []
      generalize no.getD (pre.length - 1) "" = prev
      cases hc : companyImportsOrder.contains g <;>
        cases hp : companyImportsOrder.contains prev <;> simp [hnext]

theorem filter_sortLoopV2 (no : ImportsOrders) (std general company project : List String)
    (rest : List ImportsOrder) :
    ∀ (i : Nat) (result : List String),
      (sortLoopV2 no std general company project i rest result).filter (fun l => l ≠ "") =
        result.filter (fun l => l ≠ "") ++
          (rest.map (fun g =>
            (selectImports g std general company project).filter (fun l => l ≠ ""))).flatten := by
  induction rest with
  | nil => intro i result; simp [sortLoopV2]
  | cons g gs ih =>
    intro i result
    rw [sortLoopV2_cons, ih]
    split_ifs <;> simp [List.filter_append]

theorem foldl_selectImports (std general company project : List String) (o : ImportsOrders) :
    ∀ acc : List (List String),
      o.foldl (fun result group => result ++ [selectImports group std general company project])
        acc = acc ++ o.map (fun g => selectImports g std general company project) := by
  induction o with
  | nil => intro acc; simp
  | cons g gs ih => intro acc; rw [List.foldl_cons, ih]; simp

theorem sortImportsByOrder_four (a b c d : ImportsOrder) (rest : ImportsOrders)
    (std general company project : List String) :
    sortImportsByOrder (a :: b :: c :: d :: rest) std general company project =
      some (selectImports a std general company project,
        selectImports b std general company project,
        selectImports c std general company project,
        selectImports d std general company project) := by
  simp [sortImportsByOrder, foldl_selectImports]

theorem perm_knownGroups_cases (o : ImportsOrders) (h : o.Perm knownGroups) :
    o ∈ allOrders := by
  have hlen : o.length = 4 := by
    have := h.length_eq
    simpa [knownGroups] using this
  match o, hlen, h with
  | [a, b, c, d], _, h =>
    have ha : a ∈ knownGroups := h.subset (by simp)
    have hb : b ∈ knownGroups := h.subset (by simp)
    have hc : c ∈ knownGroups := h.subset (by simp)
    have hd : d ∈ knownGroups := h.subset (by simp)
    have hnd : [a, b, c, d].Nodup := h.nodup_iff.mpr (by decide)
    simp only [knownGroups, StdImportsOrder, GeneralImportsOrder, CompanyImportsOrder,
      ProjectImportsOrder, List.mem_cons, List.mem_singleton, List.not_mem_nil, or_false]
      at ha hb hc hd
    rcases ha with rfl | rfl | rfl | rfl <;> rcases hb with rfl | rfl | rfl | rfl <;>
      rcases hc with rfl | rfl | rfl | rfl <;> rcases hd with rfl | rfl | rfl | rfl <;>
      first
        | (exfalso; revert hnd; decide)
        | decide

/-- The parser in terms of the character-level test for a blank string. -/
theorem StringToImportsOrders_unfold (s : String) :
    StringToImportsOrders s =
      if (unique (strings.Split
            (if ∀ c ∈ s.data, unicode.IsSpace c = true then defaultImportsOrder else s)
            ',')).length ≠ 4 then
        .error malformedError
      else
        parseLoop (unique (strings.Split
          (if ∀ c ∈ s.data, unicode.IsSpace c = true then defaultImportsOrder else s) ',')) [] := by
  have hs : (if (strings.TrimSpace s).length = 0 then defaultImportsOrder else s) =
      (if ∀ c ∈ s.data, unicode.IsSpace c = true then defaultImportsOrder else s) := by
    by_cases hb : ∀ c ∈ s.data, unicode.IsSpace c = true
    · rw [if_pos hb, if_pos ((trimSpace_length_eq_zero_iff s).mpr hb)]
    · rw [if_neg hb, if_neg (fun h => hb ((trimSpace_length_eq_zero_iff s).mp h))]
  unfold StringToImportsOrders
  simp only [hs]

end Lemmas

/-! ## The order-specification parser -/

/-- C1: a configuration string whose comma-separated tokens, trimmed, are the
four identifiers in some order is accepted, and the result is those trimmed
tokens in input order. Matching is case-sensitive: `Std` is rejected. -/
theorem StringToImportsOrders_permutation (s : String)
    (h : ((strings.Split s ',').map strings.TrimSpace).Perm knownGroups) :
    StringToImportsOrders s = .ok ((strings.Split s ',').map strings.TrimSpace) ∧
    StringToImportsOrders "Std,general,company,project" =
      .error "unknown order group type: \"Std\"" := by
  refine ⟨?_, rfl⟩
  have hlen : (strings.Split s ',').length = 4 := by
    have := h.length_eq
    simpa [knownGroups] using this
  rw [StringToImportsOrders_of_four s hlen, parseLoop_ok]
  · simp
  · intro g hg
    exact h.subset (List.mem_map_of_mem _ hg)

theorem StringToImportsOrders_permutation_witness :
    ((strings.Split " project ,std,\tgeneral , company" ',').map strings.TrimSpace).Perm
        knownGroups ∧
      StringToImportsOrders " project ,std,\tgeneral , company" =
        .ok ["project", "std", "general", "company"] :=
  have hp : ((strings.Split " project ,std,\tgeneral , company" ',').map
      strings.TrimSpace).Perm knownGroups := by decide
  ⟨hp, (StringToImportsOrders_permutation " project ,std,\tgeneral , company" hp).1⟩

/-- C2 (as stated, refuted): a successful result may hold the same identifier
twice, here for two tokens that differ only in surrounding white space. -/
theorem StringToImportsOrders_nodup_counterexample :
    ¬ (∀ (s : String) (r : ImportsOrders), StringToImportsOrders s = .ok r →
        r.length = 4 ∧ r.Nodup ∧ ∀ g ∈ r, g ∈ knownGroups) := by
  intro h
  have h2 := (h "std, std,general,company" ["std", "std", "general", "company"] rfl).2.1
  revert h2
  decide

/-- C2 (amended): every successful result of `StringToImportsOrders` has
length four and each of its elements is one of `std`, `general`, `company`,
`project`. -/
theorem StringToImportsOrders_ok_shape (s : String) (r : ImportsOrders)
    (h : StringToImportsOrders s = .ok r) :
    r.length = 4 ∧ ∀ g ∈ r, g ∈ knownGroups := by
  unfold StringToImportsOrders at h
  simp only [unique_eq] at h
  generalize (if (strings.TrimSpace s).length = 0 then defaultImportsOrder else s) = s2 at h
  by_cases hlen : (strings.Split s2 ',').length = 4
  · rw [if_neg (fun hn => hn hlen)] at h
    obtain ⟨hr, hall⟩ := parseLoop_inv _ _ _ h
    subst hr
    refine ⟨by simpa using hlen, ?_⟩
    intro g hg
    simp only [List.nil_append, List.mem_map] at hg
    obtain ⟨x, hx, rfl⟩ := hg
    exact hall x hx
  · rw [if_pos hlen] at h
    cases h

theorem StringToImportsOrders_ok_shape_witness :
    StringToImportsOrders "general, std ,project,company" =
        .ok ["general", "std", "project", "company"] ∧
      (["general", "std", "project", "company"] : ImportsOrders).length = 4 ∧
      ∀ g ∈ (["general", "std", "project", "company"] : ImportsOrders), g ∈ knownGroups :=
  ⟨rfl, StringToImportsOrders_ok_shape "general, std ,project,company"
    ["general", "std", "project", "company"] rfl⟩

/-- C3: an empty or all-white-space configuration string is parsed as the
default string `std,general,company,project` is, giving the default order. -/
theorem StringToImportsOrders_blank (s : String)
    (h : ∀ c ∈ s.data, unicode.IsSpace c = true) :
    StringToImportsOrders s = StringToImportsOrders "std,general,company,project" ∧
    StringToImportsOrders s = .ok ["std", "general", "company", "project"] := by
  have h0 := (trimSpace_length_eq_zero_iff s).mpr h
  have e : StringToImportsOrders s = .ok ["std", "general", "company", "project"] := by
    unfold StringToImportsOrders
    simp only [h0, if_true]
    rfl
  exact ⟨e.trans rfl, e⟩

theorem StringToImportsOrders_blank_witness :
    (∀ c ∈ " \t  \n".data, unicode.IsSpace c = true) ∧
      StringToImportsOrders " \t  \n" = StringToImportsOrders "std,general,company,project" ∧
      StringToImportsOrders " \t  \n" = .ok ["std", "general", "company", "project"] :=
  ⟨by decide, StringToImportsOrders_blank " \t  \n" (by decide)⟩

/-- C4 (the code at the failing input): the configuration
`std,std,general,company,project` is rejected with the malformed-configuration
error, whereas `std,general,company,project` is accepted; `unique` has dropped
nothing. -/
theorem StringToImportsOrders_duplicate_rejected :
    StringToImportsOrders "std,std,general,company,project" =
        .error "use this parameters to sort all groups of your imports: \"std,general,company,project\"" ∧
      StringToImportsOrders "std,general,company,project" =
        .ok ["std", "general", "company", "project"] ∧
      unique ["std", "std", "general", "company", "project"] =
        ["std", "std", "general", "company", "project"] :=
  ⟨rfl, rfl, rfl⟩

/-- C5: a non-blank configuration string with fewer than four comma-separated
tokens is rejected, the message quoting the default string. -/
theorem StringToImportsOrders_too_few (s : String)
    (hnb : ¬ ∀ c ∈ s.data, unicode.IsSpace c = true)
    (hlt : (strings.Split s ',').length < 4) :
    StringToImportsOrders s =
      .error "use this parameters to sort all groups of your imports: \"std,general,company,project\"" := by
  have h0 : (strings.TrimSpace s).length ≠ 0 :=
    fun h => hnb ((trimSpace_length_eq_zero_iff s).mp h)
  have hne : (strings.Split s ',').length ≠ 4 := by omega
  simp only [StringToImportsOrders, h0, if_false, unique_eq]
  rw [if_pos hne]
  rfl

theorem StringToImportsOrders_too_few_witness :
    (¬ ∀ c ∈ "std,general,company".data, unicode.IsSpace c = true) ∧
      (strings.Split "std,general,company" ',').length < 4 ∧
      StringToImportsOrders "std,general,company" =
        .error "use this parameters to sort all groups of your imports: \"std,general,company,project\"" :=
  ⟨by decide, by decide, StringToImportsOrders_too_few "std,general,company" (by decide) (by decide)⟩

/-- C6 (the code at the failing input): the configuration
`std,std,general,company`, four raw tokens of which three are distinct, is
accepted and `std` is returned twice. -/
theorem StringToImportsOrders_duplicate_accepted :
    StringToImportsOrders "std,std,general,company" =
        .ok ["std", "std", "general", "company"] ∧
      (unique (strings.Split "std,std,general,company" ',')).length = 4 :=
  ⟨rfl, by decide⟩

/-- C7: when the count check passes and some token, trimmed, is not one of the
four identifiers, the parser fails and the message names the first such token,
trimmed. -/
theorem StringToImportsOrders_unknown (s t : String)
    (hcount : (unique (strings.Split s ',')).length = 4)
    (hfirst : ((unique (strings.Split s ',')).map strings.TrimSpace).find?
        (fun x => decide (x ∉ knownGroups)) = some t) :
    StringToImportsOrders s = .error ("unknown order group type: \"" ++ t ++ "\"") ∧
    StringToImportsOrders "std,general,company,unknown" =
      .error "unknown order group type: \"unknown\"" := by
  refine ⟨?_, rfl⟩
  rw [unique_eq] at hcount hfirst
  rw [StringToImportsOrders_of_four s hcount, parseLoop_error _ _ t hfirst]
  rfl

theorem StringToImportsOrders_unknown_witness :
    (unique (strings.Split "std, vendor ,company,other" ',')).length = 4 ∧
      StringToImportsOrders "std, vendor ,company,other" =
        .error "unknown order group type: \"vendor\"" :=
  ⟨by decide, (StringToImportsOrders_unknown "std, vendor ,company,other" "vendor"
    (by decide) (by decide)).1⟩

/-! ## The group sequencer -/

/-- C8: with the explicit specification `[std, general, company, project]` the
sequencer returns `std ++ [""] ++ general ++ [""] ++ company ++ project`: a
separator before `general` and before `company`, none before `project`. -/
theorem sortImportsByOrderV2_explicit_default (std general company project : List String) :
    sortImportsByOrderV2 ["std", "general", "company", "project"] std general company project =
        std ++ [""] ++ general ++ [""] ++ company ++ project ∧
      sortImportsByOrderV2 ["std", "general", "company", "project"]
        ["fmt"] ["pkg/g"] ["org/c"] ["proj/p"] =
        ["fmt", "", "pkg/g", "", "org/c", "proj/p"] := by
  refine ⟨?_, rfl⟩
  simp [sortImportsByOrderV2, sortLoopV2, selectImports, companyImportsOrder,
    StdImportsOrder, GeneralImportsOrder, CompanyImportsOrder, ProjectImportsOrder]

/-- C9 (the code at the failing input): with an empty specification and the
inputs `fmt`, `pkg/g`, `org/c`, `proj/p` the sequencer returns the lines in the
order std, company, project, general, which is not what it returns for the
explicit default `[std, general, company, project]`; the legacy
`sortImportsByOrder` does return the same for the empty specification as for
that default. -/
theorem sortImportsByOrderV2_empty_diverges :
    sortImportsByOrderV2 [] ["fmt"] ["pkg/g"] ["org/c"] ["proj/p"] =
        ["fmt", "", "org/c", "proj/p", "", "pkg/g"] ∧
      sortImportsByOrderV2 ["std", "general", "company", "project"]
          ["fmt"] ["pkg/g"] ["org/c"] ["proj/p"] =
        ["fmt", "", "pkg/g", "", "org/c", "proj/p"] ∧
      sortImportsByOrderV2 [] ["fmt"] ["pkg/g"] ["org/c"] ["proj/p"] ≠
        sortImportsByOrderV2 ["std", "general", "company", "project"]
          ["fmt"] ["pkg/g"] ["org/c"] ["proj/p"] ∧
      sortImportsByOrder [] ["fmt"] ["pkg/g"] ["org/c"] ["proj/p"] =
        sortImportsByOrder ["std", "general", "company", "project"]
          ["fmt"] ["pkg/g"] ["org/c"] ["proj/p"] := by
  refine ⟨rfl, rfl, ?_, rfl⟩
  decide

/-- C10: for a non-empty specification `o` and a position `j + 1 > 0`, the
output is what the first `j + 1` entries produce, then one empty string
exactly when entries `j + 1` and `j` are not both in `{company, project}`,
then the lines of entry `j + 1`, then what the later entries produce. For
`[project, company, general, std]` the output is
`project ++ company ++ [""] ++ general ++ [""] ++ std`. -/
theorem sortImportsByOrderV2_separator (o : ImportsOrders)
    (std general company project : List String) (j : Nat) (hj : j + 1 < o.length) :
    sortImportsByOrderV2 o std general company project =
        sortImportsByOrderV2 (o.take (j + 1)) std general company project ++
          (if o[j + 1] ∈ ["company", "project"] ∧ o[j] ∈ ["company", "project"]
            then [] else [""]) ++
          selectImports o[j + 1] std general company project ++
          sortLoopV2 o std general company project (j + 2) (o.drop (j + 2)) [] ∧
      sortImportsByOrderV2 ["project", "company", "general", "std"]
          std general company project =
        project ++ company ++ [""] ++ general ++ [""] ++ std := by
  constructor
  · have hne : o ≠ [] := by
      intro h0
      simp [h0] at hj
    have hsplit : o = o.take (j + 1) ++ o[j + 1] :: o.drop (j + 2) := by
      rw [← List.drop_eq_getElem_cons hj, List.take_append_drop]
    have hlen : (o.take (j + 1)).length = j + 1 := by
      rw [List.length_take]
      omega
    have hne2 : o.take (j + 1) ≠ [] := by
      intro h0
      rw [h0] at hlen
      simp at hlen
    have hprev : o.getD j "" = o[j] := by
      simp [List.getD_eq_getElem?_getD, List.getElem?_eq_getElem (show j < o.length by omega)]
    rw [sortImportsByOrderV2_of_ne_nil o _ _ _ _ hne,
      sortImportsByOrderV2_of_ne_nil _ _ _ _ _ hne2, ← sortLoopV2_take]
    have h1 : sortLoopV2 o std general company project 0 o [] =
        sortLoopV2 o std general company project 0
          (o.take (j + 1) ++ o[j + 1] :: o.drop (j + 2)) [] :=
      congrArg (fun l => sortLoopV2 o std general company project 0 l []) hsplit
    rw [h1, sortLoopV2_append, hlen, sortLoopV2_cons, sortLoopV2_acc]
    have hidx : 0 + (j + 1) - 1 = j := by omega
    have hnz : 0 + (j + 1) ≠ 0 := by omega
    have harith : 0 + (j + 1) + 1 = j + 2 := by omega
    rw [hidx, hprev, if_pos hnz, harith]
    have hcond : (!(companyImportsOrder.contains o[j + 1] &&
        companyImportsOrder.contains o[j])) = true ↔
        ¬ (o[j + 1] ∈ ["company", "project"] ∧ o[j] ∈ ["company", "project"]) := by
      simp [companyImportsOrder, CompanyImportsOrder, ProjectImportsOrder]
      tauto
    by_cases hc : o[j + 1] ∈ ["company", "project"] ∧ o[j] ∈ ["company", "project"]
    · rw [if_neg (fun hb => (hcond.mp hb) hc), if_pos hc]
      simp
    · rw [if_pos (hcond.mpr hc), if_neg hc]
  · simp [sortImportsByOrderV2, sortLoopV2, selectImports, companyImportsOrder,
      StdImportsOrder, GeneralImportsOrder, CompanyImportsOrder, ProjectImportsOrder]

theorem sortImportsByOrderV2_separator_witness :
    (1 : Nat) + 1 < (["general", "project", "company", "std"] : ImportsOrders).length ∧
      sortImportsByOrderV2 ["general", "project", "company", "std"]
          ["fmt"] ["pkg/g"] ["org/c"] ["proj/p"] =
        sortImportsByOrderV2 ["general", "project"] ["fmt"] ["pkg/g"] ["org/c"] ["proj/p"] ++
          [] ++ ["org/c"] ++ ["", "fmt"] :=
  ⟨by decide, (sortImportsByOrderV2_separator ["general", "project", "company", "std"]
    ["fmt"] ["pkg/g"] ["org/c"] ["proj/p"] 1 (by decide)).1⟩

/-- C11: for a non-empty specification the output starts with the lines of
the group its first entry names; nothing, and so no separator, precedes them. -/
theorem sortImportsByOrderV2_first (g : ImportsOrder) (rest : ImportsOrders)
    (std general company project : List String) :
    sortImportsByOrderV2 (g :: rest) std general company project =
        selectImports g std general company project ++
          sortLoopV2 (g :: rest) std general company project 1 rest [] ∧
      selectImports g std general company project <+:
        sortImportsByOrderV2 (g :: rest) std general company project := by
  have h : sortImportsByOrderV2 (g :: rest) std general company project =
      selectImports g std general company project ++
        sortLoopV2 (g :: rest) std general company project 1 rest [] := by
    rw [sortImportsByOrderV2_of_ne_nil _ _ _ _ _ (List.cons_ne_nil g rest), sortLoopV2_cons,
      sortLoopV2_acc]
    simp
  exact ⟨h, ⟨_, h.symm⟩⟩

/-- C12: for a specification that is a permutation of the four identifiers and
input lists without empty strings, the output without its empty strings is the
concatenation of the input lists in specification order, each as given. -/
theorem sortImportsByOrderV2_content (o : ImportsOrders)
    (std general company project : List String) (h : o.Perm knownGroups)
    (hs : "" ∉ std) (hg : "" ∉ general) (hc : "" ∉ company) (hp : "" ∉ project) :
    (sortImportsByOrderV2 o std general company project).filter (fun l => l ≠ "") =
      (o.map (fun g => selectImports g std general company project)).flatten := by
  have hne : o ≠ [] := by
    intro h0
    have := h.length_eq
    simp [h0, knownGroups] at this
  have hkeep : ∀ g : ImportsOrder,
      (selectImports g std general company project).filter (fun l => l ≠ "") =
        selectImports g std general company project := by
    intro g
    apply List.filter_eq_self.mpr
    intro x hx
    have hx2 : x ≠ "" := by
      rintro rfl
      rcases selectImports_cases g std general company project with e | e | e | e | e <;>
        rw [e] at hx
      · exact hs hx
      · exact hg hx
      · exact hc hx
      · exact hp hx
      · simp at hx
    simpa using hx2
  rw [sortImportsByOrderV2_of_ne_nil _ _ _ _ _ hne, filter_sortLoopV2]
  simp only [hkeep, List.filter_nil, List.nil_append]

theorem sortImportsByOrderV2_content_witness :
    (["project", "std", "company", "general"] : ImportsOrders).Perm knownGroups ∧
      (sortImportsByOrderV2 ["project", "std", "company", "general"]
          ["fmt", "os"] ["pkg/g"] ["org/c"] ["proj/p", "proj/q"]).filter (fun l => l ≠ "") =
        ["proj/p", "proj/q", "fmt", "os", "org/c", "pkg/g"] :=
  ⟨by decide, sortImportsByOrderV2_content ["project", "std", "company", "general"]
    ["fmt", "os"] ["pkg/g"] ["org/c"] ["proj/p", "proj/q"] (by decide) (by decide) (by decide)
    (by decide) (by decide)⟩

/-- C13: for every specification, of any length and with any names, the
sequencer returns a result and the index `no[i-1]` is never out of range; at
the turn of an entry `g` that is not one of the four identifiers only the
separator is appended, no line. -/
theorem sortImportsByOrderV2_never_faults (o pre post : ImportsOrders) (g : ImportsOrder)
    (std general company project : List String) (hg : g ∉ knownGroups) :
    sortImportsByOrderV2Checked o std general company project =
        some (sortImportsByOrderV2 o std general company project) ∧
      selectImports g std general company project = [] ∧
      sortImportsByOrderV2 (pre ++ g :: post) std general company project =
        sortLoopV2 (pre ++ g :: post) std general company project 0 pre [] ++
          (if pre = [] then [] else [""]) ++
          sortLoopV2 (pre ++ g :: post) std general company project (pre.length + 1) post [] := by
  refine ⟨?_, selectImports_unknown g std general company project hg, ?_⟩
  · unfold sortImportsByOrderV2Checked sortImportsByOrderV2
    exact sortLoopV2Checked_eq _ std general company project _ [] [] (by simp)
  · have hne : pre ++ g :: post ≠ [] := by simp
    have hpair : companyImportsOrder.contains g = false := by
      simp only [knownGroups, List.mem_cons, List.mem_singleton, List.not_mem_nil, or_false,
        not_or] at hg
      simp [companyImportsOrder, hg.2.2.1, hg.2.2.2]
    rw [sortImportsByOrderV2_of_ne_nil _ _ _ _ _ hne, sortLoopV2_append, sortLoopV2_cons,
      sortLoopV2_acc, selectImports_unknown g std general company project hg, hpair]
    by_cases hpre : pre = []
    · simp [hpre]
    · have hlen : 0 + pre.length ≠ 0 := by
        have := List.length_pos.mpr hpre
        omega
      simp [hpre, hlen]

theorem sortImportsByOrderV2_never_faults_witness :
    ("vendor" : ImportsOrder) ∉ knownGroups ∧
      sortImportsByOrderV2Checked ["std", "vendor", "project", "company", "extra"]
          ["fmt"] ["pkg/g"] ["org/c"] ["proj/p"] =
        some ["fmt", "", "", "proj/p", "org/c", ""] ∧
      selectImports "vendor" ["fmt"] ["pkg/g"] ["org/c"] ["proj/p"] = [] :=
  have h := sortImportsByOrderV2_never_faults ["std", "vendor", "project", "company", "extra"]
    ["std"] ["project", "company", "extra"] "vendor" ["fmt"] ["pkg/g"] ["org/c"] ["proj/p"]
    (by decide)
  ⟨by decide, h.1, h.2.1⟩

/-! ## The legacy sequencer -/

/-- C14: for a specification that is a permutation of the four identifiers,
`sortImportsByOrder` returns the four-tuple whose k-th component is the input
list of the group that the k-th entry names, so the outputs are the four
inputs rearranged, each list as it was given. -/
theorem sortImportsByOrder_permutation (o : ImportsOrders)
    (std general company project : List String) (h : o.Perm knownGroups) :
    ∃ a b c d : ImportsOrder, o = [a, b, c, d] ∧
      sortImportsByOrder o std general company project =
        some (selectImports a std general company project,
          selectImports b std general company project,
          selectImports c std general company project,
          selectImports d std general company project) ∧
      [selectImports a std general company project,
        selectImports b std general company project,
        selectImports c std general company project,
        selectImports d std general company project].Perm
        [std, general, company, project] := by
  have hlen : o.length = 4 := by
    have := h.length_eq
    simpa [knownGroups] using this
  match o, hlen, h with
  | [a, b, c, d], _, h =>
    refine ⟨a, b, c, d, rfl, sortImportsByOrder_four a b c d [] std general company project, ?_⟩
    have hm := h.map (fun g => selectImports g std general company project)
    simpa [knownGroups, selectImports, StdImportsOrder, GeneralImportsOrder,
      CompanyImportsOrder, ProjectImportsOrder] using hm

theorem sortImportsByOrder_permutation_witness :
    (["project", "std", "company", "general"] : ImportsOrders).Perm knownGroups ∧
      sortImportsByOrder ["project", "std", "company", "general"]
          ["fmt"] ["pkg/g"] ["org/c"] ["proj/p"] =
        some (["proj/p"], ["fmt"], ["org/c"], ["pkg/g"]) ∧
      ∃ a b c d : ImportsOrder,
        (["project", "std", "company", "general"] : ImportsOrders) = [a, b, c, d] ∧
        sortImportsByOrder ["project", "std", "company", "general"]
            ["fmt"] ["pkg/g"] ["org/c"] ["proj/p"] =
          some (selectImports a ["fmt"] ["pkg/g"] ["org/c"] ["proj/p"],
            selectImports b ["fmt"] ["pkg/g"] ["org/c"] ["proj/p"],
            selectImports c ["fmt"] ["pkg/g"] ["org/c"] ["proj/p"],
            selectImports d ["fmt"] ["pkg/g"] ["org/c"] ["proj/p"]) ∧
        [selectImports a ["fmt"] ["pkg/g"] ["org/c"] ["proj/p"],
          selectImports b ["fmt"] ["pkg/g"] ["org/c"] ["proj/p"],
          selectImports c ["fmt"] ["pkg/g"] ["org/c"] ["proj/p"],
          selectImports d ["fmt"] ["pkg/g"] ["org/c"] ["proj/p"]].Perm
          [["fmt"], ["pkg/g"], ["org/c"], ["proj/p"]] :=
  ⟨by decide, rfl, sortImportsByOrder_permutation ["project", "std", "company", "general"]
    ["fmt"] ["pkg/g"] ["org/c"] ["proj/p"] (by decide)⟩

/-- C15: with the empty specification `sortImportsByOrder` returns the four
inputs unchanged in the slots std, general, company, project. -/
theorem sortImportsByOrder_empty (std general company project : List String) :
    sortImportsByOrder [] std general company project =
      some (std, general, company, project) := by
  simp [sortImportsByOrder]

/-- C19: `sortImportsByOrder` faults on a specification of one, two or three
entries; on four or more entries it returns, the result is that of the first
four entries alone, slot k holding the list that entry k names, which is empty
for a name outside the four identifiers. -/
theorem sortImportsByOrder_safety (o : ImportsOrders)
    (std general company project : List String) :
    (o.length = 1 ∨ o.length = 2 ∨ o.length = 3 →
        sortImportsByOrder o std general company project = none) ∧
      (4 ≤ o.length →
        sortImportsByOrder o std general company project =
            sortImportsByOrder (o.take 4) std general company project ∧
          ∃ a b c d : ImportsOrder, o.take 4 = [a, b, c, d] ∧
            sortImportsByOrder o std general company project =
              some (selectImports a std general company project,
                selectImports b std general company project,
                selectImports c std general company project,
                selectImports d std general company project)) ∧
      (∀ g : ImportsOrder, g ∉ knownGroups →
        selectImports g std general company project = []) ∧
      sortImportsByOrder ["std", "general", "company"] ["fmt"] ["pkg/g"] ["org/c"] ["proj/p"] =
        none ∧
      sortImportsByOrder ["project", "vendor", "std", "std", "general"]
          ["fmt"] ["pkg/g"] ["org/c"] ["proj/p"] =
        some (["proj/p"], [], ["fmt"], ["fmt"]) := by
  refine ⟨?_, ?_, fun g hg => selectImports_unknown g std general company project hg, rfl, rfl⟩
  · intro hlen
    match o, hlen with
    | [a], _ => simp [sortImportsByOrder]
    | [a, b], _ => simp [sortImportsByOrder]
    | [a, b, c], _ => simp [sortImportsByOrder]
    | [], h => simp at h
    | _ :: _ :: _ :: _ :: _, h => simp at h
  · intro hlen
    match o, hlen with
    | a :: b :: c :: d :: rest, _ =>
      have e1 := sortImportsByOrder_four a b c d rest std general company project
      have e2 := sortImportsByOrder_four a b c d [] std general company project
      refine ⟨?_, a, b, c, d, by simp, e1⟩
      rw [e1]
      simpa using e2.symm
    | [], h => simp at h
    | [_], h => simp at h
    | [_, _], h => simp at h
    | [_, _, _], h => simp at h

/-! ## Deduplication and the success condition of the parser -/

/-- C16 (the code at the failing input): `unique` returns
`["std", "std", "general"]` for `["std", "std", "general"]`, a list with a
duplicate; no entry is dropped. -/
theorem unique_keeps_duplicates :
    unique ["std", "std", "general"] = ["std", "std", "general"] ∧
      ¬ (unique ["std", "std", "general"]).Nodup := by
  refine ⟨rfl, ?_⟩
  decide

/-- C17: with `s2` the default string when `s` is blank and `s` otherwise, the
parser succeeds exactly when `unique` of the comma-split of `s2` has four
entries and each trims to one of the four identifiers; when that list does not
have four entries the malformed-configuration error is returned whatever the
tokens are, as for `a,b,c`. -/
theorem StringToImportsOrders_success_iff (s : String) :
    ((∃ r, StringToImportsOrders s = .ok r) ↔
        (unique (strings.Split
            (if ∀ c ∈ s.data, unicode.IsSpace c = true then defaultImportsOrder else s)
            ',')).length = 4 ∧
          ∀ g ∈ unique (strings.Split
            (if ∀ c ∈ s.data, unicode.IsSpace c = true then defaultImportsOrder else s) ','),
            strings.TrimSpace g ∈ knownGroups) ∧
      ((unique (strings.Split
            (if ∀ c ∈ s.data, unicode.IsSpace c = true then defaultImportsOrder else s)
            ',')).length ≠ 4 →
        StringToImportsOrders s =
          .error "use this parameters to sort all groups of your imports: \"std,general,company,project\"") ∧
      StringToImportsOrders "a,b,c" =
        .error "use this parameters to sort all groups of your imports: \"std,general,company,project\"" := by
  rw [StringToImportsOrders_unfold]
  generalize unique (strings.Split
    (if ∀ c ∈ s.data, unicode.IsSpace c = true then defaultImportsOrder else s) ',') = groups
  refine ⟨⟨?_, ?_⟩, ?_, rfl⟩
  · rintro ⟨r, hr⟩
    by_cases hlen : groups.length = 4
    · rw [if_neg (fun hn => hn hlen)] at hr
      exact ⟨hlen, (parseLoop_inv _ _ _ hr).2⟩
    · rw [if_pos hlen] at hr
      cases hr
  · rintro ⟨hlen, hall⟩
    rw [if_neg (fun hn => hn hlen), parseLoop_ok _ _ hall]
    exact ⟨_, rfl⟩
  · intro hlen
    rw [if_pos hlen]
    rfl

/-! ## The number of separators -/

/-- C18: for a specification that is a permutation of the four identifiers the
output has as many entries as the four inputs together, plus two when
`company` and `project` are adjacent in the specification and plus three
otherwise, whatever the inputs are. -/
theorem sortImportsByOrderV2_length (o : ImportsOrders)
    (std general company project : List String) (h : o.Perm knownGroups) :
    ((["company", "project"] <:+: o ∨ ["project", "company"] <:+: o) →
        (sortImportsByOrderV2 o std general company project).length =
          std.length + general.length + company.length + project.length + 2) ∧
      (¬ (["company", "project"] <:+: o ∨ ["project", "company"] <:+: o) →
        (sortImportsByOrderV2 o std general company project).length =
          std.length + general.length + company.length + project.length + 3) := by
  have hmem := perm_knownGroups_cases o h
  simp only [allOrders, List.mem_cons, List.mem_singleton, List.not_mem_nil, or_false] at hmem
  rcases hmem with rfl | rfl | rfl | rfl | rfl | rfl | rfl | rfl | rfl | rfl | rfl | rfl | rfl | rfl | rfl | rfl | rfl | rfl | rfl | rfl | rfl | rfl | rfl | rfl <;>
    constructor <;> intro hadj <;>
    first
      | (exfalso; revert hadj; decide)
      | (simp [sortImportsByOrderV2, sortLoopV2, selectImports, companyImportsOrder,
          StdImportsOrder, GeneralImportsOrder, CompanyImportsOrder, ProjectImportsOrder]
         omega)

theorem sortImportsByOrderV2_length_witness :
    (["general", "project", "company", "std"] : ImportsOrders).Perm knownGroups ∧
      (["company", "project"] <:+: (["general", "project", "company", "std"] : ImportsOrders) ∨
        ["project", "company"] <:+: (["general", "project", "company", "std"] : ImportsOrders)) ∧
      (sortImportsByOrderV2 ["general", "project", "company", "std"]
          ["fmt", "os"] [] ["org/c"] ["proj/p"]).length = 2 + 0 + 1 + 1 + 2 :=
  ⟨by decide, by decide,
    (sortImportsByOrderV2_length ["general", "project", "company", "std"]
      ["fmt", "os"] [] ["org/c"] ["proj/p"] (by decide)).1 (by decide)⟩

end reviser
